import Mathlib

/-!
# Verification of the superbenchmark result-summary analyzer

Shallow embedding of `superbench/analyzer/result_summary.py` and
`superbench/analyzer/file_handler.py`.  Tables are association lists of
columns over `ℚ`-valued cells (`none` models a missing / NaN cell), rules are
records mirroring the YAML rule documents, and the Python exception flow is
modelled with `Except` plus explicit state passing for in-place mutation.

Components whose code is not part of the two embedded modules
(`RuleBase._check_rules` / `RuleBase._get_metrics`, `SummaryOp`,
`data_analysis.aggregate`) are modelled from the specification; each such
definition carries a doc comment starting with `Modelled from the spec:`.
-/

namespace SuperBench

/-! ## Basic string utilities (kernel-computable stand-ins for Python string
operations) -/

/-- Code-point comparison on char lists (CPython compares strings by code
points; kernel-reducible, unlike the library order on `String`). -/
def charListLe : List Char → List Char → Bool
  | [], _ => true
  | _ :: _, [] => false
  | a :: as, b :: bs =>
    if a.toNat < b.toNat then true
    else if b.toNat < a.toNat then false
    else charListLe as bs

/-- Python string `<=` (code-point lexicographic). -/
def strLe (a b : String) : Bool := charListLe a.data b.data

/-- Insert a string into a sorted list (helper for `sortStrings`). -/
def insertStr (s : String) : List String → List String
  | [] => [s]
  | t :: ts => if strLe s t then s :: t :: ts else t :: insertStr s ts

/-- Python `sorted` on strings, as used at result_summary.py line 133. -/
def sortStrings : List String → List String
  | [] => []
  | s :: ss => insertStr s (sortStrings ss)

/-- `needle` is a prefix of `hay` (char lists). -/
def listIsPre : List Char → List Char → Bool
  | [], _ => true
  | _ :: _, [] => false
  | a :: as, b :: bs => a == b && listIsPre as bs

/-- Helper for `containsSub`: does `needle` occur in the char list? -/
def containsSubAux (needle : List Char) : List Char → Bool
  | [] => needle.isEmpty
  | c :: rest => listIsPre needle (c :: rest) || containsSubAux needle rest

/-- `needle` occurs as a contiguous substring of `hay`; this is
`re.search(needle, hay)` for a metacharacter-free pattern. -/
def containsSub (needle hay : String) : Bool := containsSubAux needle.data hay.data

/-- Helper for `hasParenGroup`. -/
def hasParenGroupAux : List Char → Bool
  | [] => false
  | '(' :: rest =>
    (rest.takeWhile (fun c => c != '\n')).contains ')' || hasParenGroupAux rest
  | _ :: rest => hasParenGroupAux rest

/-- `re.search(r'\(.*\)', s)` as used at result_summary.py line 45: the string
contains a `'('` followed by a `')'` with no newline in between (`.` does not
match a newline). -/
def hasParenGroup (s : String) : Bool := hasParenGroupAux s.data

/-- Python `s.strip('p')`: remove every leading and trailing `'p'`
(result_summary.py line 139). -/
def pyStripP (s : String) : String :=
  String.mk (((s.data.dropWhile (· == 'p')).reverse.dropWhile (· == 'p')).reverse)

/-- Decimal digits to a natural number. -/
def digitsToNat (cs : List Char) : ℕ :=
  cs.foldl (fun n c => 10 * n + (c.toNat - 48)) 0

/-- Python `int(s)` restricted to an optional sign followed by digits
(`none` models the `ValueError` raised on any other shape, e.g.
`int('ercentile')`). -/
def pyInt (s : String) : Option ℤ :=
  match s.data with
  | [] => none
  | '-' :: ds =>
    if !ds.isEmpty && ds.all Char.isDigit then some (-(digitsToNat ds : ℤ)) else none
  | ds => if !ds.isEmpty && ds.all Char.isDigit then some ((digitsToNat ds : ℤ)) else none

/-- Does the string start with the character `'p'`
(`str.startswith(statistic_name, 'p')`, result_summary.py line 137)? -/
def startsWithP (s : String) : Bool :=
  match s.data with
  | 'p' :: _ => true
  | _ => false

/-! ## Rational arithmetic

The library's rational operations are `@[irreducible]`, which blocks kernel
evaluation of concrete runs; the embedding therefore computes with
equivalent operations written via `Rat.divInt` (proved equal to the library
operations in the bridge lemmas below). -/

/-- Addition on ℚ (equals `a + b`). -/
def qAdd (a b : ℚ) : ℚ :=
  Rat.divInt (a.num * (b.den : ℤ) + b.num * (a.den : ℤ)) ((a.den : ℤ) * (b.den : ℤ))

/-- Subtraction on ℚ (equals `a - b`). -/
def qSub (a b : ℚ) : ℚ :=
  Rat.divInt (a.num * (b.den : ℤ) - b.num * (a.den : ℤ)) ((a.den : ℤ) * (b.den : ℤ))

/-- Multiplication on ℚ (equals `a * b`). -/
def qMul (a b : ℚ) : ℚ := Rat.divInt (a.num * b.num) ((a.den : ℤ) * (b.den : ℤ))

/-- Division on ℚ (equals `a / b`, with the `0` convention for `b = 0`). -/
def qDiv (a b : ℚ) : ℚ := Rat.divInt (a.num * (b.den : ℤ)) ((a.den : ℤ) * b.num)

/-- Strict comparison on ℚ (equals `a < b`). -/
def qLt (a b : ℚ) : Bool := Rat.blt a b

/-- Comparison on ℚ (equals `a ≤ b`). -/
def qLe (a b : ℚ) : Bool := !Rat.blt b a

/-- Sum of a list of rationals (equals `l.sum`). -/
def qSum (l : List ℚ) : ℚ := l.foldr qAdd 0

/-! ## Rounding -/

/-- Floor of a rational, written with `Int.fdiv` so the kernel can evaluate
it (`ratFloor q = ⌊q⌋`). -/
def ratFloor (q : ℚ) : ℤ := q.num.fdiv (q.den : ℤ)

/-- Round-half-to-even on ℚ, the tie-breaking used by numpy/pandas `round`. -/
def roundHalfEven (q : ℚ) : ℤ :=
  if qLt (qSub q (ratFloor q : ℚ)) (Rat.divInt 1 2) then ratFloor q
  else if qLt (Rat.divInt 1 2) (qSub q (ratFloor q : ℚ)) then ratFloor q + 1
  else if ratFloor q % 2 = 0 then ratFloor q else ratFloor q + 1

/-- `DataFrame.round(6)` on a single value (result_summary.py line 145). -/
def round6 (q : ℚ) : ℚ := Rat.divInt (roundHalfEven (qMul q 1000000)) 1000000

/-! ## Data model -/

/-- A column of the raw-data table: metric name together with its cells
(`none` models NaN / a missing value). -/
abbrev Col := String × List (Option ℚ)

/-- The analyzer's data table (pandas `DataFrame` with `node` index and metric
columns).  `index` carries the row labels; statistics only consume columns.
Tables are rectangular: every column has `index.length` cells. -/
structure Table where
  index : List String
  cols : List Col
  deriving DecidableEq, Repr

/-- One output line `[category, metric, statistic, value]`
(result_summary.py line 93). -/
abbrev SummaryEntry := String × String × String × ℚ

/-- The summary document: category (in insertion order) to its lines. -/
abbrev SummaryDoc := List (String × List SummaryEntry)

instance : DecidableEq SummaryEntry := inferInstance

instance : DecidableEq SummaryDoc := inferInstance

/-- Association-list lookup with string keys. -/
def lookupStr {α : Type} (k : String) : List (String × α) → Option α
  | [] => none
  | (k', v) :: rest => if k' = k then some v else lookupStr k rest

/-- Python `dict` assignment `d[k] = v`: replace the value of an existing key
in place, else append the new key at the end (insertion order preserved). -/
def dictSet {α : Type} (k : String) (v : α) : List (String × α) → List (String × α)
  | [] => [(k, v)]
  | (k', v') :: rest => if k' = k then (k, v) :: rest else (k', v') :: dictSet k v rest

/-- Errors of the analyzer, following the spec's taxonomy (§7); they are
raised in the source as Python exceptions via `logger.log_and_raise` or by
the runtime (`ValueError` from `int`). -/
inductive AnalyzerError
  | invalidRuleDocument (name msg : String)
  | noMatchingMetrics (name : String)
  | unsupportedStatistic (tok : String)
  | intConversion (tok : String)
  | emptyColumnReduction (metric statName : String)
  deriving DecidableEq, Repr

instance {ε α : Type} [DecidableEq ε] [DecidableEq α] : DecidableEq (Except ε α) := fun x y =>
  match x, y with
  | .error a, .error b =>
    if h : a = b then .isTrue (by rw [h])
    else .isFalse (fun hc => by injection hc with h2; exact h h2)
  | .error _, .ok _ => .isFalse (fun hc => Except.noConfusion hc)
  | .ok _, .error _ => .isFalse (fun hc => Except.noConfusion hc)
  | .ok a, .ok b =>
    if h : a = b then .isTrue (by rw [h])
    else .isFalse (fun hc => by injection hc with h2; exact h h2)

/-! ## Statistic reducers

`SummaryOp` / `SummaryType` live in `superbench/analyzer/summary_op.py`,
which is not under src/; the reducers are modelled from the spec. -/

/-- Drop missing cells from a column; reducers exclude NaN (spec §4.1). -/
def dropNA (cells : List (Option ℚ)) : List ℚ := cells.filterMap id

/-- Minimum of a nonempty list via a fold. -/
def qMinAux (a : ℚ) : List ℚ → ℚ
  | [] => a
  | b :: bs => qMinAux (if qLt b a then b else a) bs

/-- Maximum of a nonempty list via a fold. -/
def qMaxAux (a : ℚ) : List ℚ → ℚ
  | [] => a
  | b :: bs => qMaxAux (if qLt a b then b else a) bs

/-- Insert into a sorted list of rationals. -/
def insertQ (x : ℚ) : List ℚ → List ℚ
  | [] => [x]
  | y :: ys => if qLe x y then x :: y :: ys else y :: insertQ x ys

/-- Sort a list of rationals ascending (for the percentile reducer). -/
def sortQ : List ℚ → List ℚ
  | [] => []
  | x :: xs => insertQ x (sortQ xs)

/-- Modelled from the spec: `SummaryOp` (not under src/) mean reducer —
missing cells are excluded, and a column with no usable data fails
(`none` signals `EmptyColumnReduction`, spec §4.1/§4.4). -/
def opMean (cells : List (Option ℚ)) : Option ℚ :=
  let vs := dropNA cells
  if vs.isEmpty then none else some (qDiv (qSum vs) ((vs.length : ℚ)))

/-- Modelled from the spec: `SummaryOp` min reducer. -/
def opMin (cells : List (Option ℚ)) : Option ℚ :=
  match dropNA cells with
  | [] => none
  | v :: vs => some (qMinAux v vs)

/-- Modelled from the spec: `SummaryOp` max reducer. -/
def opMax (cells : List (Option ℚ)) : Option ℚ :=
  match dropNA cells with
  | [] => none
  | v :: vs => some (qMaxAux v vs)

/-- Modelled from the spec: `SummaryOp` count reducer (number of non-missing
cells; like the other reducers it fails on a column with no usable data). -/
def opCount (cells : List (Option ℚ)) : Option ℚ :=
  let vs := dropNA cells
  if vs.isEmpty then none else some ((vs.length : ℚ))

/-- Modelled from the spec: `SummaryOp` standard-deviation reducer.  The spec
names the statistic without fixing a formula; since square roots leave ℚ we
use `Rat.sqrt` of the mean squared deviation as the ℚ-valued stand-in.  No
claim depends on its numeric value. -/
def opStd (cells : List (Option ℚ)) : Option ℚ :=
  let vs := dropNA cells
  if vs.isEmpty then none
  else
    let m := qDiv (qSum vs) ((vs.length : ℚ))
    some (Rat.sqrt (qDiv (qSum (vs.map (fun v => qMul (qSub v m) (qSub v m)))) ((vs.length : ℚ))))

/-- Modelled from the spec: `SummaryOp` percentile reducer (§4.1): sort the
non-missing values and linearly interpolate at rank `p/100 * (n-1)`;
a column with no usable data fails. -/
def percentileOp (p : ℤ) (cells : List (Option ℚ)) : Option ℚ :=
  let vs := sortQ (dropNA cells)
  match vs with
  | [] => none
  | _ :: _ =>
    let n := vs.length
    let q : ℚ := qDiv (qMul ((p : ℚ)) (qSub ((n : ℚ)) 1)) 100
    let frac := qSub q ((ratFloor q : ℚ))
    match vs.get? (ratFloor q).toNat with
    | none => none
    | some a =>
      match vs.get? ((ratFloor q).toNat + 1) with
      | none => some a
      | some b => some (qAdd a (qMul frac (qSub b a)))

/-- The statistic dispatch of `_generate_summary` (result_summary.py lines
134-143): a name starting with `'p'` is sent to the percentile reducer with
parameter `int(name.strip('p'))` — `intConversion` models the `ValueError`
raised by `int` — and any other name is looked up as a `SummaryType`
(membership modelled from the spec §4.1; `unsupportedStatistic` models the
`ValueError` raised by `SummaryType(name)`). -/
def getOp (statName : String) : Except AnalyzerError (List (Option ℚ) → Option ℚ) :=
  if startsWithP statName then
    match pyInt (pyStripP statName) with
    | none => .error (.intConversion statName)
    | some v =>
      if 0 ≤ v ∧ v ≤ 99 then .ok (percentileOp v) else .error (.unsupportedStatistic statName)
  else if statName = "mean" then .ok opMean
  else if statName = "std" then .ok opStd
  else if statName = "min" then .ok opMin
  else if statName = "max" then .ok opMax
  else if statName = "count" then .ok opCount
  else .error (.unsupportedStatistic statName)

/-! ## Aggregation -/

/-- Row-wise mean over the cells of a group of columns, skipping missing
cells (pandas mean over the column axis). -/
def rowMean (vals : List (Option ℚ)) : Option ℚ :=
  let vs := vals.filterMap id
  if vs.isEmpty then none else some (qDiv (qSum vs) ((vs.length : ℚ)))

/-- Keep the first occurrence of every string, preserving order. -/
def dedupFirst : List String → List String
  | [] => []
  | k :: ks => k :: (dedupFirst ks).filter (fun x => x != k)

/-- Cell `i` of a column (`none` when missing or out of range). -/
def colCell (c : Col) (i : ℕ) : Option ℚ := (c.2.get? i).join

/-- Modelled from the spec: grouping key for rank aggregation
(`data_analysis.aggregate` is not under src/).  Per the `_generate_summary`
docstring ("aggregate the data by user-defined pattern or ranks (:\\d+)") a
trailing `:<digits>` rank token is stripped; columns sharing the stripped
name form one group. -/
def rankKey (name : String) : String :=
  let rev := name.data.reverse
  let ds := rev.takeWhile Char.isDigit
  match ds, rev.drop ds.length with
  | _ :: _, ':' :: rest => String.mk rest.reverse
  | _, _ => name

/-- The text of the first parenthesised segment of a pattern. -/
def captureOf (p : String) : Option String :=
  match p.data.dropWhile (fun c => c != '(') with
  | _ :: rest => some (String.mk (rest.takeWhile (fun c => c != ')')))
  | [] => none

/-- Modelled from the spec (§4.2): grouping key for pattern aggregation
(`data_analysis.aggregate` is not under src/).  Modelled for literal,
metacharacter-free patterns: the parenthesised segment is the captured text,
columns containing it group under it, all other columns pass through
unchanged.  No claim exercises pattern aggregation. -/
def patternKey (p : String) (c : String) : String :=
  match captureOf p with
  | some cap => if containsSub cap c then cap else c
  | none => c

/-- Modelled from the spec (§4.2): collapse the columns of each group (same
key) into one column, averaging row-wise and skipping missing cells; output
columns appear in first-occurrence order of their keys. -/
def aggregateByKey (key : String → String) (t : Table) : Table :=
  let n := t.index.length
  let keys := dedupFirst (t.cols.map (fun c => key c.1))
  { index := t.index
    cols := keys.map (fun k =>
      let group := t.cols.filter (fun c => key c.1 == k)
      (k, (List.range n).map (fun i => rowMean (group.map (fun c => colCell c i))))) }

/-- The `aggregate` field of a rule: a YAML boolean or a string pattern. -/
inductive AggregateField
  | bool (b : Bool)
  | str (s : String)
  deriving DecidableEq, Repr

/-- The aggregation step of `_generate_summary` (result_summary.py lines
125-131): Python truthiness — `False` and the empty string skip aggregation,
`True` aggregates by ranks, a nonempty string by pattern. -/
def applyAggregate (agg : AggregateField) (t : Table) : Table :=
  match agg with
  | .bool true => aggregateByKey rankKey t
  | .bool false => t
  | .str p => if p = "" then t else aggregateByKey (patternKey p) t

/-! ## Rule documents and validation -/

/-- The `statistics` field of a raw rule: a single scalar or a list
(result_summary.py lines 37-38 normalize a scalar to a list in place). -/
inductive StatField
  | scalar (s : String)
  | list (l : List String)
  deriving DecidableEq, Repr

/-- A rule as read from the YAML rule document; `none` models an absent
field. -/
structure RawRule where
  categories : Option String
  metrics : Option (List String)
  statistics : Option StatField
  aggregate : Option AggregateField
  deriving DecidableEq, Repr

/-- A resolved rule record as built by `_parse_rules` into `_sb_rules`
(result_summary.py lines 67-74). -/
structure SBRule where
  name : String
  categories : String
  metrics : List String
  statistics : List String
  aggregate : AggregateField
  deriving DecidableEq, Repr

/-- View a `statistics` field as a list (the normalization of
result_summary.py lines 37-38). -/
def statsAsList : StatField → List String
  | .scalar s => [s]
  | .list l => l

/-- `re.fullmatch(r'p\d\d?', s)` (result_summary.py line 41). -/
def isPdd (s : String) : Bool :=
  match s.data with
  | 'p' :: ds => !ds.isEmpty && decide (ds.length ≤ 2) && ds.all Char.isDigit
  | _ => false

/-- Modelled from the spec (§4.1): the member names of the `SummaryType`
enumeration (`summary_op.py` is not under src/): mean, standard-deviation,
min, max, count, percentile.  That `'percentile'` is a member is also forced
by the source (`SummaryType('percentile')`, result_summary.py line 138). -/
def summaryTypeNames : List String := ["mean", "std", "min", "max", "count", "percentile"]

/-- A statistic token accepted by `_check_rules` (result_summary.py line 41):
either `p\d\d?` or a `SummaryType` member name. -/
def validStat (s : String) : Bool := isPdd s || summaryTypeNames.contains s

/-- The tail of `_check_rules` once the three fields are present
(result_summary.py lines 36-46): normalize a scalar `statistics` to a
one-element list (this mutation of the caller's rule object survives even
when a later check raises), validate every statistic token, and validate the
`aggregate` shape. -/
def checkStats (rule : RawRule) (name : String) (st : StatField) :
    RawRule × Except AnalyzerError Unit :=
  if (statsAsList st).all validStat then
    match rule.aggregate with
    | none => ({ rule with statistics := some (.list (statsAsList st)) }, .ok ())
    | some (.bool _) => ({ rule with statistics := some (.list (statsAsList st)) }, .ok ())
    | some (.str s) =>
      if hasParenGroup s then ({ rule with statistics := some (.list (statsAsList st)) }, .ok ())
      else ({ rule with statistics := some (.list (statsAsList st)) },
            .error (.invalidRuleDocument name "aggregate must be bool type"))
  else ({ rule with statistics := some (.list (statsAsList st)) },
        .error (.invalidRuleDocument name "invalid function name"))

/-- `ResultSummary._check_rules` (result_summary.py lines 20-47).  Returns
the final state of the rule object together with the validation outcome.
The `super()._check_rules` call is modelled from the spec:
`RuleBase._check_rules` is not under src/; per §4.3 it rejects a rule
missing `categories`. -/
def checkRules (rule : RawRule) (name : String) : RawRule × Except AnalyzerError Unit :=
  if rule.categories = none then
    (rule, .error (.invalidRuleDocument name "lack of categories"))
  else if rule.metrics = none then
    (rule, .error (.invalidRuleDocument name "lack of metrics"))
  else
    match rule.statistics with
    | none => (rule, .error (.invalidRuleDocument name "lack of function"))
    | some st => checkStats rule name st

/-- The metric set a rule resolves to: raw columns matched by some entry of
the rule's `metrics` patterns (regex search modelled as substring
containment, adequate for literal metric names). -/
def resolveMetrics (raw : Table) (rule : RawRule) : List String :=
  (raw.cols.map (·.1)).filter (fun c => (rule.metrics.getD []).any (fun p => containsSub p c))

/-- Modelled from the spec: `RuleBase._get_metrics` is not under src/.  Per
§4.3 the rule's `metrics` spec is matched against the raw columns and an
empty resolved set is a validation failure (`NoMatchingMetrics`). -/
def getMetrics (raw : Table) (name : String) (rule : RawRule) : Except AnalyzerError (List String) :=
  let resolved := resolveMetrics raw rule
  if resolved.isEmpty then .error (.noMatchingMetrics name) else .ok resolved

/-- One iteration of the `_parse_rules` loop (result_summary.py lines 65-74)
for a single rule: validate, then resolve metrics and build the `_sb_rules`
record.  The first component is the final state of the (possibly mutated)
rule object. -/
def stepResult (raw : Table) (name : String) (rule : RawRule) :
    RawRule × Except AnalyzerError SBRule :=
  let p := checkRules rule name
  match p.2 with
  | .error e => (p.1, .error e)
  | .ok _ =>
    match getMetrics raw name p.1 with
    | .error e => (p.1, .error e)
    | .ok resolved =>
      (p.1, .ok { name := name
                  categories := p.1.categories.getD ""
                  metrics := resolved
                  statistics := (p.1.statistics.map statsAsList).getD []
                  aggregate := p.1.aggregate.getD (.bool false) })

/-- `_parse_rules` (result_summary.py lines 49-78) over the ordered rule
document.  Returns the final state of the caller's rule document (Python
mutates the rule objects in place) and either the resolved rules or the
first error (the `except` clause then makes `_parse_rules` return `False`). -/
def parseRulesGo (raw : Table) :
    List (String × RawRule) → List (String × RawRule) × Except AnalyzerError (List SBRule)
  | [] => ([], .ok [])
  | (name, rule) :: rest =>
    let p := stepResult raw name rule
    match p.2 with
    | .error e => ((name, p.1) :: rest, .error e)
    | .ok sb =>
      let q := parseRulesGo raw rest
      ((name, p.1) :: q.1, q.2.map (sb :: ·))

/-- Column projection `self._raw_data_df[metrics]` (result_summary.py line
124); the resolved metrics are always a subset of the raw columns. -/
def selectCols (raw : Table) (metrics : List String) : List Col :=
  metrics.filterMap (fun m => (lookupStr m raw.cols).map (fun cells => (m, cells)))

/-- Apply one statistic to every column (columns in projection order);
a column with no usable data raises `EmptyColumnReduction` naming the
offending metric/statistic pair. -/
def computeStat (statName : String) (op : List (Option ℚ) → Option ℚ) :
    List Col → Except AnalyzerError (List (String × ℚ))
  | [] => .ok []
  | c :: cs =>
    match op c.2 with
    | none => .error (.emptyColumnReduction c.1 statName)
    | some v =>
      match computeStat statName op cs with
      | .error e => .error e
      | .ok rest => .ok ((c.1, v) :: rest)

/-- The statistics loop of `_generate_summary` (result_summary.py lines
134-143): one labelled row of values per statistic, in declared order; the
first error aborts the rule. -/
def statRows (cols : List Col) : List String → Except AnalyzerError (List (String × List (String × ℚ)))
  | [] => .ok []
  | s :: rest =>
    match getOp s with
    | .error e => .error e
    | .ok op =>
      match computeStat s op cols with
      | .error e => .error e
      | .ok row =>
        match statRows cols rest with
        | .error e => .error e
        | .ok rs => .ok ((s, row) :: rs)

/-- The (possibly aggregated) columns a rule's statistics run over
(result_summary.py lines 124-131). -/
def ruleCols (raw : Table) (r : SBRule) : List Col :=
  (applyAggregate r.aggregate { index := raw.index, cols := selectCols raw r.metrics }).cols

/-- Round every value of every statistic row to 6 decimals
(result_summary.py line 145). -/
def roundRows (rows : List (String × List (String × ℚ))) :
    List (String × List (String × ℚ)) :=
  rows.map (fun sr => (sr.1, sr.2.map (fun mv => (mv.1, round6 mv.2))))

/-- Assemble the statistic rows into the `summary_df_of_rule` grid: the
`.loc[statistic_name] = …` assignments upsert rows keyed by statistic name
(result_summary.py lines 133-143). -/
def gridOf (rows : List (String × List (String × ℚ))) :
    List (String × List (String × ℚ)) :=
  (roundRows rows).foldl (fun acc sr => dictSet sr.1 sr.2 acc) []

/-- The per-rule body of `_generate_summary` together with
`_format_summary_of_rule` (result_summary.py lines 80-94 and 122-147):
project the raw table to the rule's metrics, aggregate if requested, compute
every statistic, round to 6 decimals, and flatten metric-major with metrics
sorted lexicographically and statistics in declared (first-occurrence)
order. -/
def processRule (raw : Table) (r : SBRule) : Except AnalyzerError (List SummaryEntry) :=
  match statRows (ruleCols raw r) r.statistics with
  | .error e => .error e
  | .ok rows =>
    .ok (((sortStrings ((ruleCols raw r).map (fun c => c.1))).map (fun m =>
      (gridOf rows).map (fun sr => (r.categories, m, sr.1, (lookupStr m sr.2).getD 0)))).flatten)

/-- The rule loop of `_generate_summary` (result_summary.py lines 120-150):
`summary[category] = summary_lines_of_rule` is a Python dict assignment —
an existing category keeps its position but its value is replaced. -/
def generateSummaryGo (raw : Table) :
    List SBRule → SummaryDoc → Except AnalyzerError SummaryDoc
  | [], acc => .ok acc
  | r :: rest, acc =>
    match processRule raw r with
    | .error e => .error e
    | .ok es => generateSummaryGo raw rest (dictSet r.categories es acc)

/-- `_generate_summary` (result_summary.py lines 111-150). -/
def generateSummary (raw : Table) (rules : List SBRule) :
    Except AnalyzerError SummaryDoc :=
  generateSummaryGo raw rules []

/-- The computational core of `run` (result_summary.py lines 152-184):
parse the rules — on failure `run` returns with no output — then generate
the summary; any exception is caught and nothing is produced. -/
def runSummary (raw : Table) (doc : List (String × RawRule)) :
    Option SummaryDoc :=
  match (parseRulesGo raw doc).2 with
  | .error _ => none
  | .ok sbRules =>
    match generateSummary raw sbRules with
    | .error _ => none
    | .ok d => some d

/-! ## The raw-data loader (`file_handler.read_raw_data`) -/

/-- A JSON scalar cell of a raw-data record. -/
inductive CellVal
  | str (s : String)
  | num (q : ℚ)
  deriving DecidableEq, Repr

/-- One JSON-lines record: field name to value. -/
abbrev RawRecord := List (String × CellVal)

/-- An input source for the loader: a missing file, or a sequence of lines
each of which parses to a record or is malformed (`none` — `jsonlines`
raises on reaching it). -/
inductive RawSource
  | missing
  | file (records : List (Option RawRecord))
  deriving DecidableEq, Repr

/-- A row label of the loader's DataFrame: default integer position, or the
`node` label after the rename (`none` models a NaN label when a record lacks
the field). -/
inductive DFIndex
  | pos (n : ℕ)
  | label (v : Option CellVal)
  deriving DecidableEq, Repr

/-- The loader's result table: labelled rows. -/
abbrev RawDF := List (DFIndex × RawRecord)

/-- Drop a field from a record. -/
def removeField (k : String) (r : RawRecord) : RawRecord :=
  r.filter (fun kv => kv.1 != k)

/-- `file_handler.read_raw_data` (file_handler.py lines 19-42): a missing
path logs an error and returns the empty DataFrame; otherwise records are
appended until the reader raises on a malformed line — the exception is
caught, logged, and whatever was accumulated is returned.  When every line
parses and a `node` column exists, the index is renamed to the node values
and the column dropped; a record without the field gets a NaN label.  Cell
alignment across heterogeneous records is irrelevant to the claims and rows
keep their own fields. -/
def read_raw_data : RawSource → RawDF
  | .missing => []
  | .file records =>
    let pre := (records.takeWhile Option.isSome).filterMap id
    if records.all Option.isSome && pre.any (fun r => (lookupStr "node" r).isSome) then
      pre.map (fun r => (DFIndex.label (lookupStr "node" r), removeField "node" r))
    else
      pre.enum.map (fun p => (DFIndex.pos p.1, p.2))

end SuperBench

namespace SuperBench

/-! ## Bridge lemmas: the kernel-computable arithmetic agrees with the
library operations on ℚ -/

theorem den_cast_ne {a : ℚ} : ((a.den : ℚ)) ≠ 0 := by exact_mod_cast a.den_nz

theorem qAdd_eq (a b : ℚ) : qAdd a b = a + b := by
  conv_rhs => rw [← Rat.num_div_den a, ← Rat.num_div_den b]
  rw [qAdd, Rat.divInt_eq_div, div_add_div _ _ (den_cast_ne (a := a)) (den_cast_ne (a := b))]
  push_cast
  ring_nf

theorem qSub_eq (a b : ℚ) : qSub a b = a - b := by
  conv_rhs => rw [← Rat.num_div_den a, ← Rat.num_div_den b]
  rw [qSub, Rat.divInt_eq_div, div_sub_div _ _ (den_cast_ne (a := a)) (den_cast_ne (a := b))]
  push_cast
  ring_nf

theorem qMul_eq (a b : ℚ) : qMul a b = a * b := by
  conv_rhs => rw [← Rat.num_div_den a, ← Rat.num_div_den b]
  rw [qMul, Rat.divInt_eq_div, div_mul_div_comm]
  push_cast
  ring_nf

theorem qDiv_eq (a b : ℚ) : qDiv a b = a / b := by
  by_cases hb : b = 0
  · subst hb
    show Rat.divInt (a.num * (((0 : ℚ).den : ℤ))) ((a.den : ℤ) * (0 : ℚ).num) = a / 0
    rw [show ((0 : ℚ).num) = 0 from rfl, mul_zero, Rat.divInt_zero, div_zero]
  · have hbn : ((b.num : ℚ)) ≠ 0 := by
      exact_mod_cast Rat.num_ne_zero.mpr hb
    have ha := den_cast_ne (a := a)
    have hb2 := den_cast_ne (a := b)
    conv_rhs => rw [← Rat.num_div_den a, ← Rat.num_div_den b]
    rw [qDiv, Rat.divInt_eq_div]
    push_cast
    field_simp

theorem qLt_iff (a b : ℚ) : qLt a b = true ↔ a < b := Iff.rfl

theorem qLe_iff (a b : ℚ) : qLe a b = true ↔ a ≤ b := by
  rw [qLe, Bool.not_eq_true']
  exact Iff.rfl

theorem qSum_eq (l : List ℚ) : qSum l = l.sum := by
  induction l with
  | nil => rfl
  | cons x xs ih => simp [qSum, List.foldr, qAdd_eq, ih.symm, List.sum_cons]

/-! ## Rounding lemmas -/

theorem ratFloor_intCast (n : ℤ) : ratFloor ((n : ℚ)) = n := by
  rw [ratFloor, Rat.num_intCast, Rat.den_intCast]
  exact_mod_cast Int.fdiv_one n

theorem roundHalfEven_intCast (n : ℤ) : roundHalfEven ((n : ℚ)) = n := by
  have hz : qSub ((n : ℚ)) ((ratFloor ((n : ℚ)) : ℚ)) = 0 := by
    rw [ratFloor_intCast, qSub_eq]
    ring
  have hlt : qLt 0 (Rat.divInt 1 2) = true := by decide
  rw [roundHalfEven, hz, hlt, ratFloor_intCast]
  simp

theorem round6_round6 (q : ℚ) : round6 (round6 q) = round6 q := by
  have h : qMul (round6 q) 1000000 = ((roundHalfEven (qMul q 1000000) : ℤ) : ℚ) := by
    rw [qMul_eq, round6, Rat.divInt_eq_div]
    exact div_mul_cancel₀ _ (by norm_num)
  conv_lhs => rw [round6]
  rw [h, roundHalfEven_intCast, round6]

theorem round6_fixed {v : ℚ} (h : ∃ q, v = round6 q) : round6 v = v := by
  obtain ⟨q, rfl⟩ := h
  exact round6_round6 q

end SuperBench

namespace SuperBench

/-! ## Structural lemmas about validation and parsing -/

theorem checkStats_fst (rule : RawRule) (name : String) (st : StatField) :
    (checkStats rule name st).1 = { rule with statistics := some (.list (statsAsList st)) } := by
  unfold checkStats
  split
  · cases hagg : rule.aggregate with
    | none => rfl
    | some a =>
      cases a with
      | bool b => rfl
      | str s =>
        dsimp only
        split <;> rfl
  · rfl

theorem checkRules_fst_metrics (rule : RawRule) (name : String) :
    ((checkRules rule name).1).metrics = rule.metrics := by
  unfold checkRules
  split
  · rfl
  · split
    · rfl
    · split
      · rfl
      · rw [checkStats_fst]

theorem checkRules_error_of_missing (rule : RawRule) (name : String)
    (h : rule.statistics = none ∨ rule.metrics = none) :
    ∃ e, (checkRules rule name).2 = .error e := by
  unfold checkRules
  by_cases hc : rule.categories = none
  · exact ⟨.invalidRuleDocument name "lack of categories", by simp [hc]⟩
  · rcases h with h | h
    · by_cases hm : rule.metrics = none
      · exact ⟨.invalidRuleDocument name "lack of metrics", by simp [hc, hm]⟩
      · exact ⟨.invalidRuleDocument name "lack of function", by simp [hc, hm, h]⟩
    · exact ⟨.invalidRuleDocument name "lack of metrics", by simp [hc, h]⟩

theorem except_unit_error_of_ne_ok {x : Except AnalyzerError Unit} (h : x ≠ .ok ()) :
    ∃ e, x = .error e := by
  cases x with
  | error e => exact ⟨e, rfl⟩
  | ok u => cases u; exact absurd rfl h

theorem stepResult_error_of_check {rule : RawRule} {name : String} {e : AnalyzerError}
    (raw : Table) (h : (checkRules rule name).2 = .error e) :
    (stepResult raw name rule).2 = .error e := by
  simp [stepResult, h]

theorem parse_error_of_mem {raw : Table} {n : String} {r : RawRule} {e : AnalyzerError} :
    ∀ doc : List (String × RawRule), (n, r) ∈ doc →
    (stepResult raw n r).2 = .error e →
    ∃ e', (parseRulesGo raw doc).2 = .error e' := by
  intro doc
  induction doc with
  | nil => intro hmem; cases hmem
  | cons hd tl ih =>
    intro hmem herr
    obtain ⟨hn, hr⟩ := hd
    rcases List.mem_cons.mp hmem with heq | htl
    · injection heq with h1 h2
      subst h1; subst h2
      exact ⟨e, by simp [parseRulesGo, herr]⟩
    · cases hp : (stepResult raw hn hr).2 with
      | error e2 => exact ⟨e2, by simp [parseRulesGo, hp]⟩
      | ok sb =>
        obtain ⟨e', hq⟩ := ih htl herr
        exact ⟨e', by simp [parseRulesGo, hp, hq, Except.map]⟩

theorem runSummary_none_of_parse_error {raw : Table} {doc : List (String × RawRule)}
    {e : AnalyzerError} (h : (parseRulesGo raw doc).2 = .error e) :
    runSummary raw doc = none := by
  simp [runSummary, h]

/-- C5: a rule document in which some rule lacks `statistics` (or `metrics`)
fails rule parsing and the run produces no summary document at all. -/
theorem c5_missing_field_aborts (raw : Table) (doc : List (String × RawRule))
    (h : ∃ nr ∈ doc, nr.2.statistics = none ∨ nr.2.metrics = none) :
    (∃ e, (parseRulesGo raw doc).2 = .error e) ∧ runSummary raw doc = none := by
  obtain ⟨⟨n, r⟩, hmem, hf⟩ := h
  obtain ⟨e, hce⟩ := checkRules_error_of_missing r n hf
  obtain ⟨e', hpe⟩ := parse_error_of_mem doc hmem (stepResult_error_of_check raw hce)
  exact ⟨⟨e', hpe⟩, runSummary_none_of_parse_error hpe⟩

theorem c5_missing_field_aborts_witness :
    runSummary { index := ["n1"], cols := [("foo", [some 1])] }
      [("r1", { categories := some "A", metrics := some ["foo"],
                statistics := none, aggregate := none })] = none :=
  (c5_missing_field_aborts _ _
    ⟨("r1", { categories := some "A", metrics := some ["foo"],
              statistics := none, aggregate := none }),
     by decide, Or.inl rfl⟩).2

end SuperBench

namespace SuperBench

/-- C2: a rule that passes format validation but whose `metrics`
specification matches no raw column fails rule parsing with
`NoMatchingMetrics`, and any run whose rule document contains it produces
no summary document — the rule never reaches summary generation. -/
theorem c2_no_matching_metrics (raw : Table) (name : String) (rule : RawRule)
    (hok : (checkRules rule name).2 = .ok ())
    (hempty : resolveMetrics raw rule = []) :
    (stepResult raw name rule).2 = .error (.noMatchingMetrics name) ∧
    ∀ doc : List (String × RawRule), (name, rule) ∈ doc → runSummary raw doc = none := by
  have hres : resolveMetrics raw (checkRules rule name).1 = [] := by
    unfold resolveMetrics at hempty ⊢
    rw [checkRules_fst_metrics]
    exact hempty
  have hstep : (stepResult raw name rule).2 = .error (.noMatchingMetrics name) := by
    simp [stepResult, hok, getMetrics, hres]
  refine ⟨hstep, fun doc hmem => ?_⟩
  obtain ⟨e', hpe⟩ := parse_error_of_mem doc hmem hstep
  exact runSummary_none_of_parse_error hpe

theorem c2_no_matching_metrics_witness :
    (stepResult { index := ["n1"], cols := [("foo", [some 1])] } "r1"
        { categories := some "A", metrics := some ["xyz"],
          statistics := some (.list ["mean"]), aggregate := none }).2 =
      .error (.noMatchingMetrics "r1") ∧
    runSummary { index := ["n1"], cols := [("foo", [some 1])] }
      [("r1", { categories := some "A", metrics := some ["xyz"],
                statistics := some (.list ["mean"]), aggregate := none })] = none := by
  have h := c2_no_matching_metrics { index := ["n1"], cols := [("foo", [some 1])] } "r1"
    { categories := some "A", metrics := some ["xyz"],
      statistics := some (.list ["mean"]), aggregate := none } (by decide) (by decide)
  exact ⟨h.1, h.2 _ (by decide)⟩

/-- C7: with the other rule fields present and valid, rule validation fails
exactly when `aggregate` is present and is neither a boolean nor a string
containing a parenthesized group; in particular a string pattern lacking the
group is rejected at validation time, so the run computes nothing and
aggregation never runs. -/
theorem c7_aggregate_validation (rule : RawRule) (name : String)
    (hc : rule.categories ≠ none) (hm : rule.metrics ≠ none)
    (st : StatField) (hs : rule.statistics = some st)
    (hv : (statsAsList st).all validStat = true) :
    (((checkRules rule name).2 ≠ .ok ()) ↔
      ∃ s, rule.aggregate = some (.str s) ∧ hasParenGroup s = false) ∧
    ∀ raw doc, (name, rule) ∈ doc →
      (∃ s, rule.aggregate = some (.str s) ∧ hasParenGroup s = false) →
      runSummary raw doc = none := by
  have hcr : (checkRules rule name).2 = (checkStats rule name st).2 := by
    simp [checkRules, hc, hm, hs]
  have hiff : ((checkStats rule name st).2 ≠ .ok ()) ↔
      ∃ s, rule.aggregate = some (.str s) ∧ hasParenGroup s = false := by
    unfold checkStats
    rw [if_pos hv]
    cases hagg : rule.aggregate with
    | none => simp
    | some a =>
      cases a with
      | bool b => simp
      | str s =>
        dsimp only
        split
        · simp only [ne_eq, not_true_eq_false, false_iff, not_exists, not_and]
          intro s' hss
          injection hss with h1
          injection h1 with h2
          subst h2
          simp_all
        · constructor
          · intro h2
            exact ⟨s, rfl, by simp_all⟩
          · intro h2 hcon
            exact Except.noConfusion hcon
  constructor
  · rw [hcr]
    exact hiff
  · intro raw doc hmem hbad
    have hne : (checkRules rule name).2 ≠ .ok () := by
      rw [hcr]
      exact hiff.mpr hbad
    obtain ⟨e, he⟩ := except_unit_error_of_ne_ok hne
    obtain ⟨e', hpe⟩ := parse_error_of_mem doc hmem (stepResult_error_of_check raw he)
    exact runSummary_none_of_parse_error hpe

theorem c7_aggregate_validation_witness :
    ((checkRules { categories := some "A", metrics := some ["foo"],
                   statistics := some (.list ["mean"]),
                   aggregate := some (.str "abc") } "r1").2 ≠ .ok ()) ∧
    runSummary { index := ["n1"], cols := [("foo", [some 1])] }
      [("r1", { categories := some "A", metrics := some ["foo"],
                statistics := some (.list ["mean"]),
                aggregate := some (.str "abc") })] = none := by
  have h := c7_aggregate_validation
    { categories := some "A", metrics := some ["foo"],
      statistics := some (.list ["mean"]), aggregate := some (.str "abc") } "r1"
    (by decide) (by decide) (.list ["mean"]) rfl (by decide)
  exact ⟨h.1.mpr ⟨"abc", rfl, by decide⟩, h.2 _ _ (by decide) ⟨"abc", rfl, by decide⟩⟩

end SuperBench

namespace SuperBench

/-- C1 counterexample: with two resolved rules sharing category `"A"` (rule
`r1` over `foo`, rule `r2` over `bar`), `_generate_summary` returns only
`r2`'s entries under `"A"`; the result is not the concatenation of both
rules' entries — `r1`'s entry is lost. -/
theorem c1_overwrite_counterexample :
    generateSummary { index := ["n1"], cols := [("foo", [some 1]), ("bar", [some 2])] }
      [{ name := "r1", categories := "A", metrics := ["foo"], statistics := ["mean"],
         aggregate := .bool false },
       { name := "r2", categories := "A", metrics := ["bar"], statistics := ["mean"],
         aggregate := .bool false }] = .ok [("A", [("A", "bar", "mean", 2)])] ∧
    [("A", "bar", "mean", (2 : ℚ))] ≠
      [("A", "foo", "mean", (1 : ℚ)), ("A", "bar", "mean", (2 : ℚ))] :=
  ⟨by decide, by decide⟩

/-- C1 (amended): when two successfully processed rules share a category,
`summary[category] = summary_lines_of_rule` makes the later rule's entries
replace the earlier rule's entries — the earlier entries are lost, and the
category keeps its insertion position. -/
theorem c1_overwrite_amended (raw : Table) (r1 r2 : SBRule) (c : String)
    (e1 e2 : List SummaryEntry)
    (h1c : r1.categories = c) (h2c : r2.categories = c)
    (hp1 : processRule raw r1 = .ok e1) (hp2 : processRule raw r2 = .ok e2) :
    generateSummary raw [r1, r2] = .ok [(c, e2)] := by
  simp [generateSummary, generateSummaryGo, hp1, hp2, h1c, h2c, dictSet]

theorem c1_overwrite_amended_witness :
    generateSummary { index := ["n1"], cols := [("foo", [some 1]), ("bar", [some 2])] }
      [{ name := "r1", categories := "A", metrics := ["foo"], statistics := ["mean"],
         aggregate := .bool false },
       { name := "r2", categories := "A", metrics := ["bar"], statistics := ["mean"],
         aggregate := .bool false }] = .ok [("A", [("A", "bar", "mean", 2)])] :=
  c1_overwrite_amended _ _ _ "A" [("A", "foo", "mean", 1)] [("A", "bar", "mean", 2)]
    rfl rfl (by decide) (by decide)

/-- C4 counterexample: a source whose first record is malformed loads to the
very same empty table as a missing file — the loader's return value does not
distinguish the two failures. -/
theorem c4_loader_counterexample :
    read_raw_data (.file [none]) = read_raw_data .missing ∧
    read_raw_data .missing = ([] : RawDF) :=
  ⟨rfl, rfl⟩

/-- C4 (amended): the loader signals neither failure in its return value:
for any source whose first record is malformed the reader's exception is
caught and the empty table is returned, identical to the missing-file
result; the two cases differ only in the logged message. -/
theorem c4_loader_amended (recs : List (Option RawRecord)) :
    read_raw_data (.file (none :: recs)) = read_raw_data .missing := rfl

theorem c4_loader_amended_witness :
    read_raw_data (.file [none, some [("node", .str "n1")]]) = read_raw_data .missing :=
  c4_loader_amended [some [("node", .str "n1")]]

/-- C9: the statistic dispatch sends every name starting with `'p'` to the
percentile reducer with parameter `int(name.strip('p'))` and never to the
named statistic; `"percentile"` passes validation as a recognized statistic,
yet summary generation reaches the integer conversion, which raises. -/
theorem c9_percentile_dispatch :
    validStat "percentile" = true ∧
    getOp "percentile" = .error (.intConversion "percentile") ∧
    (∀ s, startsWithP s = true → pyInt (pyStripP s) = none →
      getOp s = .error (.intConversion s)) ∧
    (∀ s v, startsWithP s = true → pyInt (pyStripP s) = some v → 0 ≤ v → v ≤ 99 →
      getOp s = .ok (percentileOp v)) ∧
    (∀ raw (r : SBRule), r.statistics = ["percentile"] →
      generateSummary raw [r] = .error (.intConversion "percentile")) := by
  have hperc : getOp "percentile" = .error (.intConversion "percentile") := rfl
  refine ⟨by decide, hperc, ?_, ?_, ?_⟩
  · intro s h1 h2
    simp [getOp, h1, h2]
  · intro s v h1 h2 h3 h4
    simp [getOp, h1, h2, h3, h4]
  · intro raw r hstat
    simp [generateSummary, generateSummaryGo, processRule, hstat, statRows, hperc]

theorem c9_percentile_dispatch_witness :
    getOp "p50" = .ok (percentileOp 50) ∧
    generateSummary { index := ["n1"], cols := [("foo", [some 1])] }
      [{ name := "r1", categories := "A", metrics := ["foo"],
         statistics := ["percentile"], aggregate := .bool false }] =
      .error (.intConversion "percentile") := by
  have h := c9_percentile_dispatch
  exact ⟨h.2.2.2.1 "p50" 50 (by decide) (by decide) (by decide) (by decide),
        h.2.2.2.2 _ _ rfl⟩

/-- C3: a reducer applied to a column with no usable data (all cells missing)
makes summary generation fail with `EmptyColumnReduction` naming the
offending metric/statistic pair; no document — and hence no default value —
is ever produced for that rule. -/
theorem c3_empty_column (raw : Table) (r : SBRule) (m : String) (cells : List (Option ℚ))
    (hagg : r.aggregate = .bool false)
    (hstats : r.statistics = ["mean"])
    (hsel : selectCols raw r.metrics = [(m, cells)])
    (hmiss : ∀ x ∈ cells, x = none) :
    generateSummary raw [r] = .error (.emptyColumnReduction m "mean") ∧
    ∀ d, generateSummary raw [r] ≠ .ok d := by
  have hdrop : dropNA cells = [] := by
    rw [dropNA, List.filterMap_eq_nil_iff]
    simpa using hmiss
  have hop : getOp "mean" = .ok opMean := rfl
  have hmean : opMean cells = none := by simp [opMean, hdrop]
  have hmain : generateSummary raw [r] = .error (.emptyColumnReduction m "mean") := by
    simp [generateSummary, generateSummaryGo, processRule, ruleCols, hsel, hagg,
      applyAggregate, hstats, statRows, hop, computeStat, hmean]
  exact ⟨hmain, fun d => by rw [hmain]; simp⟩

theorem c3_empty_column_witness :
    generateSummary { index := ["n1"], cols := [("foo", [none])] }
      [{ name := "r1", categories := "A", metrics := ["foo"],
         statistics := ["mean"], aggregate := .bool false }] =
      .error (.emptyColumnReduction "foo" "mean") :=
  (c3_empty_column _ _ "foo" [none] rfl rfl (by decide) (by decide)).1

end SuperBench

namespace SuperBench

theorem stepResult_fst (raw : Table) (name : String) (rule : RawRule) :
    (stepResult raw name rule).1 = (checkRules rule name).1 := by
  unfold stepResult
  dsimp only
  split
  · rfl
  · split <;> rfl

theorem checkRules_fst_of_fields (rule : RawRule) (name : String)
    (hc : rule.categories ≠ none) (hm : rule.metrics ≠ none)
    {st : StatField} (hs : rule.statistics = some st) :
    (checkRules rule name).1 = { rule with statistics := some (.list (statsAsList st)) } := by
  unfold checkRules
  simp [hc, hm, hs, checkStats_fst]

theorem get?_append_cons {α : Type} (pre : List α) (x : α) (post : List α) :
    (pre ++ x :: post).get? pre.length = some x := by
  induction pre with
  | nil => rfl
  | cons a as ih => simpa using ih

theorem parseRulesGo_cons_error (raw : Table) (n : String) (r : RawRule)
    (rest : List (String × RawRule)) (e : AnalyzerError)
    (h : (stepResult raw n r).2 = .error e) :
    (parseRulesGo raw ((n, r) :: rest)).1 = (n, (stepResult raw n r).1) :: rest := by
  simp [parseRulesGo, h]

theorem parseRulesGo_cons_ok (raw : Table) (n : String) (r : RawRule)
    (rest : List (String × RawRule)) (sb : SBRule)
    (h : (stepResult raw n r).2 = .ok sb) :
    (parseRulesGo raw ((n, r) :: rest)).1 =
      (n, (stepResult raw n r).1) :: (parseRulesGo raw rest).1 := by
  simp [parseRulesGo, h]

/-- C10: rule validation mutates the caller's rule document in place: a rule
(reached by the parse loop) whose `statistics` is a single scalar has that
field replaced by a one-element list inside the document, so after parsing
the document is no longer identical to the one passed in. -/
theorem c10_scalar_statistics_mutation (raw : Table) (pre post : List (String × RawRule))
    (n : String) (rule : RawRule) (s : String)
    (hc : rule.categories ≠ none) (hm : rule.metrics ≠ none)
    (hs : rule.statistics = some (.scalar s))
    (hpre : ∀ p ∈ pre, ∃ sb, (stepResult raw p.1 p.2).2 = .ok sb) :
    ((parseRulesGo raw (pre ++ (n, rule) :: post)).1).get? pre.length =
      some (n, { rule with statistics := some (.list [s]) }) ∧
    (parseRulesGo raw (pre ++ (n, rule) :: post)).1 ≠ pre ++ (n, rule) :: post := by
  have hfst : (stepResult raw n rule).1 = { rule with statistics := some (.list [s]) } := by
    rw [stepResult_fst, checkRules_fst_of_fields rule n hc hm hs]
    rfl
  have hget : ∀ pre' : List (String × RawRule),
      (∀ p ∈ pre', ∃ sb, (stepResult raw p.1 p.2).2 = .ok sb) →
      ((parseRulesGo raw (pre' ++ (n, rule) :: post)).1).get? pre'.length =
        some (n, { rule with statistics := some (.list [s]) }) := by
    intro pre'
    induction pre' with
    | nil =>
      intro _
      cases hsr : (stepResult raw n rule).2 with
      | error e =>
        rw [List.nil_append, parseRulesGo_cons_error raw n rule post e hsr]
        simp [hfst]
      | ok sb =>
        rw [List.nil_append, parseRulesGo_cons_ok raw n rule post sb hsr]
        simp [hfst]
    | cons hd tl ih =>
      intro hpre'
      obtain ⟨hn, hr⟩ := hd
      obtain ⟨sb, hsb⟩ := hpre' (hn, hr) (List.mem_cons_self _ _)
      rw [List.cons_append, parseRulesGo_cons_ok raw hn hr _ sb hsb]
      simpa using ih (fun p hp => hpre' p (List.mem_cons_of_mem _ hp))
  have h1 := hget pre hpre
  refine ⟨h1, fun hcon => ?_⟩
  rw [hcon, get?_append_cons] at h1
  injection h1 with h2
  injection h2 with h3 h4
  have h5 := congrArg RawRule.statistics h4
  rw [hs] at h5
  injection h5 with h6
  exact StatField.noConfusion h6

theorem c10_scalar_statistics_mutation_witness :
    ((parseRulesGo { index := ["n1"], cols := [("foo", [some 1])] }
        [("r1", { categories := some "A", metrics := some ["foo"],
                  statistics := some (.scalar "mean"), aggregate := none })]).1).get? 0 =
      some ("r1", { categories := some "A", metrics := some ["foo"],
                    statistics := some (.list ["mean"]), aggregate := none }) ∧
    (parseRulesGo { index := ["n1"], cols := [("foo", [some 1])] }
        [("r1", { categories := some "A", metrics := some ["foo"],
                  statistics := some (.scalar "mean"), aggregate := none })]).1 ≠
      [("r1", { categories := some "A", metrics := some ["foo"],
                statistics := some (.scalar "mean"), aggregate := none })] := by
  have h := c10_scalar_statistics_mutation { index := ["n1"], cols := [("foo", [some 1])] }
    [] [] "r1"
    { categories := some "A", metrics := some ["foo"],
      statistics := some (.scalar "mean"), aggregate := none } "mean"
    (by decide) (by decide) rfl (fun p hp => absurd hp (List.not_mem_nil p))
  exact h

end SuperBench

namespace SuperBench

/-! ## Rounding of all emitted values (C8) -/

theorem round6_zero : round6 0 = 0 := by decide

theorem mem_dictSet {α : Type} (k : String) (v : α) (l : List (String × α))
    (x : String × α) (hx : x ∈ dictSet k v l) : x = (k, v) ∨ x ∈ l := by
  induction l with
  | nil => simpa [dictSet] using hx
  | cons p rest ih =>
    obtain ⟨k', v'⟩ := p
    simp only [dictSet] at hx
    split at hx
    · rcases List.mem_cons.mp hx with h1 | h1
      · exact Or.inl h1
      · exact Or.inr (List.mem_cons_of_mem _ h1)
    · rcases List.mem_cons.mp hx with h1 | h1
      · exact Or.inr (h1 ▸ List.mem_cons_self _ _)
      · rcases ih h1 with h2 | h2
        · exact Or.inl h2
        · exact Or.inr (List.mem_cons_of_mem _ h2)

theorem mem_foldl_dictSet {α : Type} (l : List (String × α)) :
    ∀ (acc : List (String × α)) (x : String × α),
      x ∈ l.foldl (fun a p => dictSet p.1 p.2 a) acc → x ∈ acc ∨ x ∈ l := by
  induction l with
  | nil => intro acc x h; exact Or.inl h
  | cons p ps ih =>
    intro acc x h
    rcases ih (dictSet p.1 p.2 acc) x h with hacc | hps
    · rcases mem_dictSet _ _ _ _ hacc with h1 | h1
      · exact Or.inr (by rw [h1]; exact List.mem_cons_self _ _)
      · exact Or.inl h1
    · exact Or.inr (List.mem_cons_of_mem _ hps)

theorem lookupStr_map_round6 (m : String) (row : List (String × ℚ)) :
    lookupStr m (row.map (fun mv => (mv.1, round6 mv.2))) = (lookupStr m row).map round6 := by
  induction row with
  | nil => rfl
  | cons mv rest ih =>
    simp only [List.map_cons, lookupStr]
    split <;> simp [*]

theorem processRule_value_round6 {raw : Table} {r : SBRule} {es : List SummaryEntry}
    (h : processRule raw r = .ok es) :
    ∀ e ∈ es, ∃ q, e.2.2.2 = round6 q := by
  unfold processRule at h
  cases hsr : statRows (ruleCols raw r) r.statistics with
  | error e0 => rw [hsr] at h; exact absurd h (by simp)
  | ok rows =>
    rw [hsr] at h
    injection h with h
    subst h
    intro e he
    rw [List.mem_flatten] at he
    obtain ⟨l, hl, hel⟩ := he
    rw [List.mem_map] at hl
    obtain ⟨m, hm, rfl⟩ := hl
    rw [List.mem_map] at hel
    obtain ⟨sr, hsr2, rfl⟩ := hel
    rcases mem_foldl_dictSet _ _ _ hsr2 with hempty | hrows6
    · cases hempty
    · rw [roundRows, List.mem_map] at hrows6
      obtain ⟨sr0, hsr0, rfl⟩ := hrows6
      rw [lookupStr_map_round6]
      cases hlk : lookupStr m sr0.2 with
      | none => exact ⟨0, by simp [round6_zero]⟩
      | some w => exact ⟨w, by simp⟩

theorem generateSummaryGo_values {raw : Table} :
    ∀ (rules : List SBRule) (acc doc : SummaryDoc),
      generateSummaryGo raw rules acc = .ok doc →
      (∀ ces ∈ acc, ∀ e ∈ ces.2, ∃ q, e.2.2.2 = round6 q) →
      ∀ ces ∈ doc, ∀ e ∈ ces.2, ∃ q, e.2.2.2 = round6 q := by
  intro rules
  induction rules with
  | nil =>
    intro acc doc h hacc
    injection h with h
    subst h
    exact hacc
  | cons r rest ih =>
    intro acc doc h hacc
    cases hpr : processRule raw r with
    | error e0 => rw [generateSummaryGo, hpr] at h; exact absurd h (by simp)
    | ok es =>
      rw [generateSummaryGo, hpr] at h
      refine ih _ _ h ?_
      intro ces hces e he
      rcases mem_dictSet _ _ _ _ hces with h1 | h1
      · exact processRule_value_round6 hpr e (by rw [h1] at he; exact he)
      · exact hacc ces h1 e he

/-- C8: every value in a generated summary document is the 6-decimal
rounding of the computed statistic — it is a fixed point of `round6`, and
hence `|v - round6 v| < 10⁻⁹` for every emitted value `v`. -/
theorem c8_six_decimal_rounding (raw : Table) (rules : List SBRule) (doc : SummaryDoc)
    (hgen : generateSummary raw rules = .ok doc)
    (c : String) (es : List SummaryEntry) (hces : (c, es) ∈ doc)
    (e : SummaryEntry) (he : e ∈ es) :
    e.2.2.2 = round6 e.2.2.2 ∧ |e.2.2.2 - round6 e.2.2.2| < 1 / 1000000000 := by
  have hv := generateSummaryGo_values rules [] doc hgen
    (by intro ces h; cases h) (c, es) hces e he
  have hfix := round6_fixed hv
  refine ⟨hfix.symm, ?_⟩
  rw [hfix, sub_self, abs_zero]
  norm_num

theorem c8_six_decimal_rounding_witness :
    (Rat.divInt 333333 1000000 = round6 (Rat.divInt 333333 1000000)) ∧
    |Rat.divInt 333333 1000000 - round6 (Rat.divInt 333333 1000000)| < 1 / 1000000000 :=
  c8_six_decimal_rounding
    { index := ["n1"], cols := [("foo", [some (Rat.divInt 1 3)])] }
    [{ name := "r1", categories := "A", metrics := ["foo"], statistics := ["mean"],
       aggregate := .bool false }]
    [("A", [("A", "foo", "mean", Rat.divInt 333333 1000000)])]
    (by decide) "A" [("A", "foo", "mean", Rat.divInt 333333 1000000)] (by decide)
    ("A", "foo", "mean", Rat.divInt 333333 1000000) (by decide)

end SuperBench

namespace SuperBench

/-! ## Metric-major ordering (C6) -/

theorem statRows_keys {cols : List Col} :
    ∀ (stats : List String) (rows : List (String × List (String × ℚ))),
      statRows cols stats = .ok rows → rows.map (fun sr => sr.1) = stats := by
  intro stats
  induction stats with
  | nil =>
    intro rows h
    injection h with h
    subst h
    rfl
  | cons s rest ih =>
    intro rows h
    unfold statRows at h
    cases hgo : getOp s with
    | error e => rw [hgo] at h; exact absurd h (by simp)
    | ok op =>
      rw [hgo] at h
      dsimp only at h
      cases hcs : computeStat s op cols with
      | error e => rw [hcs] at h; exact absurd h (by simp)
      | ok row =>
        rw [hcs] at h
        dsimp only at h
        cases hsr : statRows cols rest with
        | error e => rw [hsr] at h; exact absurd h (by simp)
        | ok rs =>
          rw [hsr] at h
          dsimp only at h
          injection h with h
          subst h
          simp [ih rs hsr]

theorem lookupStr_append {α : Type} (k : String) (l1 l2 : List (String × α)) :
    lookupStr k (l1 ++ l2) =
      match lookupStr k l1 with
      | some v => some v
      | none => lookupStr k l2 := by
  induction l1 with
  | nil => rfl
  | cons p rest ih =>
    obtain ⟨k', v⟩ := p
    simp only [List.cons_append, lookupStr]
    split <;> simp [ih]

theorem dictSet_fresh {α : Type} (k : String) (v : α) (l : List (String × α))
    (h : lookupStr k l = none) : dictSet k v l = l ++ [(k, v)] := by
  induction l with
  | nil => rfl
  | cons p rest ih =>
    obtain ⟨k', v'⟩ := p
    simp only [lookupStr] at h
    by_cases hk : k' = k
    · rw [if_pos hk] at h
      exact absurd h (by simp)
    · rw [if_neg hk] at h
      simp only [dictSet, if_neg hk]
      rw [ih h]
      simp

theorem foldl_dictSet_fresh {α : Type} :
    ∀ (rows : List (String × α)) (acc : List (String × α)),
      (∀ p ∈ rows, lookupStr p.1 acc = none) →
      (rows.map (fun p => p.1)).Nodup →
      rows.foldl (fun a p => dictSet p.1 p.2 a) acc = acc ++ rows := by
  intro rows
  induction rows with
  | nil => intro acc _ _; simp
  | cons p ps ih =>
    intro acc hfresh hnd
    have hnd' : (p.1 :: ps.map (fun p => p.1)).Nodup := by
      rw [List.map_cons] at hnd
      exact hnd
    have hnd2 := List.nodup_cons.mp hnd' 
    simp only [List.foldl_cons]
    rw [show dictSet p.1 p.2 acc = acc ++ [(p.1, p.2)] from
      dictSet_fresh p.1 p.2 acc (hfresh p (List.mem_cons_self _ _))]
    rw [ih (acc ++ [(p.1, p.2)]) ?_ hnd2.2]
    · simp
    · intro q hq
      rw [lookupStr_append, hfresh q (List.mem_cons_of_mem _ hq)]
      have hne : p.1 ≠ q.1 := by
        intro hcon
        exact hnd2.1 (by rw [hcon]; exact List.mem_map_of_mem _ hq)
      simp [lookupStr, hne]

theorem roundRows_keys (rows : List (String × List (String × ℚ))) :
    (roundRows rows).map (fun sr => sr.1) = rows.map (fun sr => sr.1) := by
  simp [roundRows, List.map_map]

theorem gridOf_of_nodup (rows : List (String × List (String × ℚ)))
    (hnd : (rows.map (fun sr => sr.1)).Nodup) : gridOf rows = roundRows rows := by
  rw [gridOf,
    foldl_dictSet_fresh (roundRows rows) [] (fun p _ => rfl) (by rw [roundRows_keys]; exact hnd)]
  simp

theorem processRule_shape {raw : Table} {r : SBRule} {es : List SummaryEntry}
    (hnd : r.statistics.Nodup) (h : processRule raw r = .ok es) :
    es.map (fun e => (e.2.1, e.2.2.1)) =
      ((sortStrings ((ruleCols raw r).map (fun c => c.1))).map
        (fun m => r.statistics.map (fun s => (m, s)))).flatten := by
  unfold processRule at h
  cases hsr : statRows (ruleCols raw r) r.statistics with
  | error e0 => rw [hsr] at h; exact absurd h (by simp)
  | ok rows =>
    rw [hsr] at h
    injection h with h
    subst h
    have hkeys : rows.map (fun sr => sr.1) = r.statistics := statRows_keys _ _ hsr
    have hkeys6 : (roundRows rows).map (fun sr => sr.1) = r.statistics := by
      rw [roundRows_keys, hkeys]
    rw [gridOf_of_nodup rows (by rw [hkeys]; exact hnd), List.map_flatten]
    congr 1
    rw [List.map_map]
    apply List.map_congr_left
    intro m _
    show List.map (fun e => (e.2.1, e.2.2.1))
        ((roundRows rows).map (fun sr => (r.categories, m, sr.1, (lookupStr m sr.2).getD 0))) =
      r.statistics.map (fun s => (m, s))
    rw [List.map_map, ← hkeys6, List.map_map]
    rfl

/-- C6: the entries a rule generates are metric-major — outer loop over the
metric columns sorted lexicographically, inner loop over the statistics in
declared order; in particular the end-to-end scenario of the spec produces
`{"A": [("A","bar","mean",3.0), ("A","foo","mean",2.0)]}`. -/
theorem c6_metric_major_order :
    (∀ (raw : Table) (r : SBRule) (es : List SummaryEntry), r.statistics.Nodup →
      processRule raw r = .ok es →
      es.map (fun e => (e.2.1, e.2.2.1)) =
        ((sortStrings ((ruleCols raw r).map (fun c => c.1))).map
          (fun m => r.statistics.map (fun s => (m, s)))).flatten) ∧
    runSummary { index := ["n1", "n2"],
                 cols := [("foo", [some 1, some 3]), ("bar", [some 2, some 4])] }
      [("r1", { categories := some "A", metrics := some ["foo", "bar"],
                statistics := some (.list ["mean"]), aggregate := some (.bool false) })] =
      some [("A", [("A", "bar", "mean", 3), ("A", "foo", "mean", 2)])] :=
  ⟨fun _ _ _ hnd h => processRule_shape hnd h, by decide⟩

theorem c6_metric_major_order_witness :
    ([("A", "bar", "mean", (3 : ℚ)), ("A", "foo", "mean", (2 : ℚ))].map
        (fun e => (e.2.1, e.2.2.1))) =
      ((sortStrings ((ruleCols
          { index := ["n1", "n2"],
            cols := [("foo", [some 1, some 3]), ("bar", [some 2, some 4])] }
          { name := "r1", categories := "A", metrics := ["foo", "bar"],
            statistics := ["mean"], aggregate := .bool false }).map (fun c => c.1))).map
        (fun m => (["mean"] : List String).map (fun s => (m, s)))).flatten :=
  c6_metric_major_order.1
    { index := ["n1", "n2"], cols := [("foo", [some 1, some 3]), ("bar", [some 2, some 4])] }
    { name := "r1", categories := "A", metrics := ["foo", "bar"],
      statistics := ["mean"], aggregate := .bool false }
    [("A", "bar", "mean", (3 : ℚ)), ("A", "foo", "mean", (2 : ℚ))]
    (by decide) (by decide)

end SuperBench
